import Mathlib

/-!
Verification development for the slashcmd CLI: a shallow embedding of the
interactive terminal renderer (src/cli/src/tui.rs), the background daemon
(src/cli/src/daemon.rs), the IPC layer (src/cli/src/ipc.rs) and the resolver
response parser (src/cli/src/prompt.rs), together with theorems settling the
behavioural claims about safety gating, error handling, idle shutdown,
endpoint ownership and terminal layout.
-/

namespace Slashcmd

/-! ## String primitives

Character-list implementations of the Rust string operations used by the
source (`contains`, `to_lowercase`, `starts_with`, `ends_with`, `trim`,
`trim_start_matches`, `trim_end_matches`, slicing).  All patterns used by the
source are ASCII, so char-wise operations agree with Rust's byte-wise ones on
every matching position. -/

/-- Whether `pat` occurs at the head of `l` (Rust `starts_with`). -/
def listStartsWith : List Char → List Char → Bool
  | [], _ => true
  | _ :: _, [] => false
  | p :: ps, c :: cs => p == c && listStartsWith ps cs

/-- Whether `pat` occurs anywhere inside `l` (Rust `str::contains`). -/
def listContainsSeq (pat : List Char) : List Char → Bool
  | [] => pat.isEmpty
  | c :: cs => listStartsWith pat (c :: cs) || listContainsSeq pat cs

/-- Rust `s.contains(pat)`. -/
def strHasSubstr (s pat : String) : Bool := listContainsSeq pat.data s.data

/-- Rust `s.to_lowercase()` (ASCII case folding). -/
def strToLower (s : String) : String := ⟨s.data.map Char.toLower⟩

/-- Rust `s.starts_with(pat)`. -/
def strStartsWith (s pat : String) : Bool := listStartsWith pat.data s.data

/-- Rust `s.ends_with(pat)`. -/
def strEndsWith (s pat : String) : Bool :=
  listStartsWith pat.data.reverse s.data.reverse

/-- Rust `s[n..]` for an ASCII-checked byte offset `n`. -/
def strDrop (s : String) (n : Nat) : String := ⟨s.data.drop n⟩

/-- Rust `s[..s.len()-n]` for an ASCII-checked trailing byte count `n`. -/
def strDropRight (s : String) (n : Nat) : String :=
  ⟨s.data.take (s.data.length - n)⟩

/-- Rust `s.trim_start()`. -/
def strTrimStart (s : String) : String := ⟨s.data.dropWhile Char.isWhitespace⟩

/-- Rust `s.trim_end()`. -/
def strTrimEnd (s : String) : String :=
  ⟨(s.data.reverse.dropWhile Char.isWhitespace).reverse⟩

/-- Rust `s.trim()`. -/
def strTrim (s : String) : String := strTrimEnd (strTrimStart s)

/-- Repeatedly strip a leading occurrence of `pat`, fuelled by the input
length (Rust `trim_start_matches`). -/
def stripAllLeading (pat : List Char) : Nat → List Char → List Char
  | 0, l => l
  | fuel + 1, l =>
    if pat.isEmpty then l
    else if listStartsWith pat l then stripAllLeading pat fuel (l.drop pat.length)
    else l

/-- Rust `s.trim_start_matches(pat)`. -/
def strStripAllLeading (s pat : String) : String :=
  ⟨stripAllLeading pat.data s.data.length s.data⟩

/-- Rust `s.trim_end_matches(pat)`. -/
def strStripAllTrailing (s pat : String) : String :=
  ⟨(stripAllLeading pat.data.reverse s.data.length s.data.reverse).reverse⟩

/-! ## Resolver response parsing (src/cli/src/prompt.rs) -/

/-- `CommandResult` from src/cli/src/prompt.rs: command text plus the
resolver's safety flag. -/
structure CommandResult where
  command : String
  safe : Bool
deriving DecidableEq, Repr

/-- The fence-stripping step of `parse_response` (src/cli/src/prompt.rs,
lines 34-44): trim, and when the text starts with a markdown fence, peel
the fence markers and trim again. -/
def strip_markdown_fence (response : String) : String :=
  if strStartsWith (strTrim response) "```" then
    strTrim (strStripAllTrailing
      (strStripAllLeading (strStripAllLeading (strTrim response) "```json") "```")
      "```")
  else strTrim response

/-- The markdown code-fence markers stripped by `clean_response_legacy`
(src/cli/src/prompt.rs, lines 63-70), in source order; the first match wins. -/
def legacy_markdown_leads : List String :=
  ["```bash\n", "```bash", "```sh\n", "```sh", "```\n", "```"]

/-- The prefix-stripping loop of `clean_response_legacy`: case-insensitive
match against the original text, stripping the matched length once. -/
def strip_first_lead : String → List String → String
  | s, [] => s
  | s, p :: ps =>
    if strStartsWith (strToLower s) p then strDrop s p.length
    else strip_first_lead s ps

/-- `clean_response_legacy` from src/cli/src/prompt.rs (lines 60-88): trim,
strip one leading markdown fence marker, strip a trailing fence, strip a
`command:` / `the command is:` lead-in, trim. -/
def clean_response_legacy (response : String) : String :=
  let s0 := strip_first_lead (strTrim response) legacy_markdown_leads
  let s1 :=
    if strEndsWith s0 "\n```" then strDropRight s0 4
    else if strEndsWith s0 "```" then strDropRight s0 3
    else s0
  let s2 :=
    if strStartsWith (strToLower s1) "command:" then strTrimStart (strDrop s1 8)
    else if strStartsWith (strToLower s1) "the command is:" then
      strTrimStart (strDrop s1 15)
    else s1
  strTrim s2

/-- `parse_response` from src/cli/src/prompt.rs (lines 33-57).  The JSON
deserialisation performed by the external serde_json crate is a parameter
`jsonParse`; when it fails the source falls back to the legacy plain-text
cleaner with `safe := false`. -/
def parse_response (jsonParse : String → Option CommandResult)
    (response : String) : Except String CommandResult :=
  match jsonParse (strip_markdown_fence response) with
  | some r => Except.ok r
  | none => Except.ok { command := clean_response_legacy response, safe := false }

/-! ## IPC data model (src/cli/src/ipc.rs) -/

/-- The well-known daemon endpoint path (src/cli/src/ipc.rs, line 5). -/
def SOCKET_PATH : String := "/tmp/cmd.sock"

/-- `ExplainStyle` from src/cli/src/ipc.rs. -/
inductive ExplainStyle
  | typescript
  | python
  | ruby
  | human
deriving DecidableEq, Repr

/-- `IpcRequest` from src/cli/src/ipc.rs: the tagged union crossing the
channel on the request side. -/
inductive IpcRequest
  | command (query : String)
  | explain (cmd : String) (style : ExplainStyle)
deriving DecidableEq, Repr

/-- `IpcResponse` from src/cli/src/ipc.rs. -/
structure IpcResponse where
  success : Bool
  result : Option String
  error : Option String
deriving DecidableEq, Repr

/-! ## Remote clients as embedded functions over transport oracles

src/cli/src/groq.rs and src/cli/src/gemini.rs wrap HTTP calls; the network
and serde layers are parameters and the error-message construction is
embedded exactly as in the source. -/

/-- Outcome of the Groq HTTP + deserialisation layers in `GroqClient::query`
(src/cli/src/groq.rs, lines 62-93): an HTTP failure, a body that fails to
deserialise, or the content of the first choice (`none` when the choice list
is empty, which the source defaults to the empty string). -/
inductive GroqTransport
  | httpErr (e : String)
  | jsonErr (e : String)
  | ok (content : Option String)
deriving DecidableEq, Repr

/-- `GroqClient::query` (src/cli/src/groq.rs, lines 62-93). -/
def groq_query (jsonParse : String → Option CommandResult) :
    GroqTransport → Except String CommandResult
  | GroqTransport.httpErr e => Except.error ("HTTP error: " ++ e)
  | GroqTransport.jsonErr e => Except.error ("JSON parse error: " ++ e)
  | GroqTransport.ok content => parse_response jsonParse (content.getD "")

/-- Outcome of the Gemini HTTP + deserialisation layers in
`GeminiClient::explain` (src/cli/src/gemini.rs, lines 71-111). -/
inductive GeminiTransport
  | httpErr (e : String)
  | jsonErr (e : String)
  | ok (text : String)
deriving DecidableEq, Repr

/-- `GeminiClient::explain` (src/cli/src/gemini.rs, lines 71-111). -/
def gemini_explain : GeminiTransport → Except String String
  | GeminiTransport.httpErr e => Except.error ("Gemini HTTP error: " ++ e)
  | GeminiTransport.jsonErr e => Except.error ("Gemini JSON parse error: " ++ e)
  | GeminiTransport.ok t => Except.ok (strTrim t)

/-- `LazyGemini::get_or_init` (src/cli/src/daemon.rs, lines 35-57): fails
exactly when no API key is configured. -/
def lazy_gemini_get_or_init (apiKey : Option String) : Except String Unit :=
  match apiKey with
  | none => Except.error "GEMINI_API_KEY not set. Set it to enable command explanations."
  | some _ => Except.ok ()

/-- Outcome of `read_line` on the accepted connection in `handle_request`
(src/cli/src/daemon.rs, lines 157-166). -/
inductive ReadOutcome
  | failed
  | line (s : String)
deriving DecidableEq, Repr

/-- `handle_request` from src/cli/src/daemon.rs (lines 152-215).  The serde
parse of the request line is the parameter `parseReq`; the remote layers are
the transport oracles above. -/
def handle_request (readRes : ReadOutcome)
    (parseReq : String → Except String IpcRequest)
    (jsonParse : String → Option CommandResult)
    (groqT : GroqTransport)
    (geminiKey : Option String)
    (gemT : GeminiTransport) : IpcResponse :=
  match readRes with
  | ReadOutcome.failed =>
    { success := false, result := none, error := some "Failed to read request" }
  | ReadOutcome.line l =>
    match parseReq l with
    | Except.error e =>
      { success := false, result := none, error := some ("Invalid request: " ++ e) }
    | Except.ok (IpcRequest.command _q) =>
      match groq_query jsonParse groqT with
      | Except.ok r => { success := true, result := some r.command, error := none }
      | Except.error e => { success := false, result := none, error := some e }
    | Except.ok (IpcRequest.explain _c _style) =>
      match lazy_gemini_get_or_init geminiKey with
      | Except.ok _ =>
        match gemini_explain gemT with
        | Except.ok r => { success := true, result := some r, error := none }
        | Except.error e => { success := false, result := none, error := some e }
      | Except.error e => { success := false, result := none, error := some e }

/-! ## Basic facts about the embedded functions -/

theorem str_append_ne_empty (a b : String) (h : a.data ≠ []) : a ++ b ≠ "" := by
  intro hab
  apply h
  have hd2 : a.data ++ b.data = [] := by
    cases a with
    | mk la =>
      cases b with
      | mk lb => exact congrArg String.data hab
  exact (List.append_eq_nil.mp hd2).1

theorem parse_response_isOk (jsonParse : String → Option CommandResult)
    (response : String) : ∃ r, parse_response jsonParse response = Except.ok r := by
  unfold parse_response
  cases jsonParse (strip_markdown_fence response) with
  | none => exact ⟨_, rfl⟩
  | some r => exact ⟨r, rfl⟩

theorem groq_query_error_ne_empty (jsonParse : String → Option CommandResult)
    (t : GroqTransport) (e : String) (h : groq_query jsonParse t = Except.error e) :
    e ≠ "" := by
  cases t with
  | httpErr x =>
    simp only [groq_query] at h
    cases h
    exact str_append_ne_empty _ _ (by decide)
  | jsonErr x =>
    simp only [groq_query] at h
    cases h
    exact str_append_ne_empty _ _ (by decide)
  | ok content =>
    obtain ⟨r, hr⟩ := parse_response_isOk jsonParse (content.getD "")
    rw [groq_query, hr] at h
    exact Except.noConfusion h

theorem gemini_explain_error_ne_empty (t : GeminiTransport) (e : String)
    (h : gemini_explain t = Except.error e) : e ≠ "" := by
  cases t with
  | httpErr x =>
    simp only [gemini_explain] at h
    cases h
    exact str_append_ne_empty _ _ (by decide)
  | jsonErr x =>
    simp only [gemini_explain] at h
    cases h
    exact str_append_ne_empty _ _ (by decide)
  | ok x =>
    simp only [gemini_explain] at h
    exact Except.noConfusion h

theorem lazy_gemini_error_ne_empty (k : Option String) (e : String)
    (h : lazy_gemini_get_or_init k = Except.error e) : e ≠ "" := by
  cases k with
  | none =>
    simp only [lazy_gemini_get_or_init] at h
    cases h
    decide
  | some x =>
    simp only [lazy_gemini_get_or_init] at h
    exact Except.noConfusion h

/-! ## Interactive renderer (src/cli/src/tui.rs)

`run_interactive_impl` is embedded as a deterministic interpreter over an
environment trace.  Each `Tick` is one iteration of the polling loop: what
`try_recv` on the explanation channel would return at that moment, and what
(if any) key event `event::poll`/`event::read` would deliver within the
100 ms window.  Worker threads are represented by the values their channels
deliver; terminal output is abstracted into the observable flags below. -/

/-- `TuiResult` from src/cli/src/tui.rs. -/
inductive TuiResult
  | execute (cmd : String)
  | cancel
deriving DecidableEq, Repr

/-- Key events distinguished by the source's match arms: Enter, Ctrl-C, Esc,
and any other key (ignored). -/
inductive KeyEvent
  | enter
  | ctrlC
  | esc
  | other
deriving DecidableEq, Repr

/-- One `try_recv` outcome on the explanation channel. -/
inductive ExpPoll
  | empty
  | ok (text : String)
  | err (msg : String)
  | disconnected
deriving DecidableEq, Repr

/-- One iteration of the polling loop: channel state, then key poll. -/
structure Tick where
  exp : ExpPoll
  key : Option KeyEvent
deriving DecidableEq, Repr

/-- Keys that do not terminate a wait loop (no key, or an ignored key). -/
def quietKey : Option KeyEvent → Bool
  | none => true
  | some KeyEvent.other => true
  | _ => false

/-- Observable side effects of one interactive session. -/
structure Obs where
  keysRead : Nat
  clipboard : List String
  rawMode : Bool
  geminiSpawned : Bool
  commandShown : Bool
  confirmPromptShown : Bool
  dangerPromptShown : Bool
  expChannelRead : Bool
deriving DecidableEq, Repr

/-- How the embedded session ends: an `Err` return, an `Ok` return, or the
trace was exhausted with the loop still iterating. -/
inductive SessionOutcome
  | fail (e : String)
  | done (r : TuiResult)
  | running
deriving DecidableEq, Repr

/-- The inner DANGER wait loop (src/cli/src/tui.rs, lines 281-341): Enter
copies the command to the clipboard, Ctrl-C/Esc cancel without copying, any
other key is ignored; after any break the session returns `Cancel`. -/
def danger_loop (c : String) : Obs → List Tick → SessionOutcome × Obs
  | obs, [] => (SessionOutcome.running, obs)
  | obs, t :: rest =>
    match t.key with
    | some KeyEvent.enter =>
      (SessionOutcome.done TuiResult.cancel,
        { obs with keysRead := obs.keysRead + 1,
                   clipboard := obs.clipboard ++ [c], rawMode := false })
    | some KeyEvent.ctrlC =>
      (SessionOutcome.done TuiResult.cancel,
        { obs with keysRead := obs.keysRead + 1, rawMode := false })
    | some KeyEvent.esc =>
      (SessionOutcome.done TuiResult.cancel,
        { obs with keysRead := obs.keysRead + 1, rawMode := false })
    | some KeyEvent.other => danger_loop c { obs with keysRead := obs.keysRead + 1 } rest
    | none => danger_loop c obs rest

/-- Result of the explanation-channel check at the top of one main-loop
iteration (src/cli/src/tui.rs, lines 230-390). -/
inductive ExpPhase
  | toDanger (obs : Obs)
  | cont (printed : Bool) (expText : Option String) (obs : Obs)
deriving DecidableEq, Repr

/-- The explanation-channel check: only performed while a channel exists and
nothing has been printed; a DANGER-tagged result diverts into the inner
DANGER loop, any other result (or a failure, or a disconnect) falls through
to the key poll with `explanation_printed` set. -/
def exp_phase (hasExp printed : Bool) (expText : Option String) (obs : Obs) :
    ExpPoll → ExpPhase
  | e =>
    if hasExp && !printed then
      match e with
      | ExpPoll.ok exp =>
        if strHasSubstr exp "[DANGER]" then
          ExpPhase.toDanger
            { obs with expChannelRead := true, commandShown := true,
                       dangerPromptShown := true }
        else
          ExpPhase.cont true (some exp)
            { obs with expChannelRead := true, commandShown := true,
                       confirmPromptShown := true }
      | ExpPoll.err _ =>
        ExpPhase.cont true expText
          { obs with expChannelRead := true, commandShown := true,
                     confirmPromptShown := true }
      | ExpPoll.disconnected => ExpPhase.cont true expText obs
      | ExpPoll.empty => ExpPhase.cont printed expText obs
    else ExpPhase.cont printed expText obs

/-- The main polling loop (src/cli/src/tui.rs, lines 228-412): per iteration
one explanation-channel check, then one key poll; Enter executes, Ctrl-C/Esc
cancel, other keys are ignored.  The loop itself never times out. -/
def main_loop (c : String) (hasExp : Bool) :
    Bool → Option String → Obs → List Tick → SessionOutcome × Obs
  | _, _, obs, [] => (SessionOutcome.running, obs)
  | printed, expText, obs, t :: rest =>
    match exp_phase hasExp printed expText obs t.exp with
    | ExpPhase.toDanger obs1 => danger_loop c obs1 (t :: rest)
    | ExpPhase.cont printed1 expText1 obs1 =>
      match t.key with
      | some KeyEvent.enter =>
        (SessionOutcome.done (TuiResult.execute c),
          { obs1 with keysRead := obs1.keysRead + 1, rawMode := false })
      | some KeyEvent.ctrlC =>
        (SessionOutcome.done TuiResult.cancel,
          { obs1 with keysRead := obs1.keysRead + 1, rawMode := false })
      | some KeyEvent.esc =>
        (SessionOutcome.done TuiResult.cancel,
          { obs1 with keysRead := obs1.keysRead + 1, rawMode := false })
      | some KeyEvent.other =>
        main_loop c hasExp printed1 expText1
          { obs1 with keysRead := obs1.keysRead + 1 } rest
      | none => main_loop c hasExp printed1 expText1 obs1 rest

/-- `recv_timeout(Duration::from_secs(30))` on the command channel
(src/cli/src/tui.rs, line 133): the worker's value if it arrives within the
bound, otherwise the timeout error the source maps every `Err(_)` to. -/
def recv_timeout : Option (Nat × Except String CommandResult) →
    Except String CommandResult
  | none => Except.error "Timeout"
  | some (t, v) => if t ≤ 30 then v else Except.error "Timeout"

/-- Inputs of one interactive invocation: the query, the command source kind
(edge mode creates the explanation channel upfront; direct mode spawns a
Gemini worker only when a key is configured), the command worker's delivery
(arrival second, value), and the polling-loop trace. -/
structure Session where
  query : String
  isEdge : Bool
  geminiKey : Option String
  cmdArrival : Option (Nat × Except String CommandResult)
  ticks : List Tick
deriving Repr

/-- Observables before any output: raw mode has been entered. -/
def obs_start : Obs :=
  { keysRead := 0, clipboard := [], rawMode := true, geminiSpawned := false,
    commandShown := false, confirmPromptShown := false,
    dangerPromptShown := false, expChannelRead := false }

/-- Observables on the command-resolution failure paths (raw mode restored,
nothing shown). -/
def obs_fail : Obs := { obs_start with rawMode := false }

/-- Observables on the auto-execute path (src/cli/src/tui.rs, lines 151-165):
the command is printed, raw mode restored, no prompt, no key read, no
explanation fetched. -/
def obs_auto : Obs := { obs_start with rawMode := false, commandShown := true }

/-- Observables when the command is shown and the polling loop starts
(src/cli/src/tui.rs, lines 167-223): a Gemini worker is spawned only in
direct mode with a key; without any explanation channel the manual
confirmation prompt is printed immediately. -/
def obs_confirm (s : Session) : Obs :=
  { obs_start with commandShown := true,
                   geminiSpawned := !s.isEdge && s.geminiKey.isSome,
                   confirmPromptShown := !(s.isEdge || s.geminiKey.isSome) }

/-- `run_interactive_impl` (src/cli/src/tui.rs, lines 62-413) over a session
environment: force-wait detection on the query, the bounded command wait,
the safe auto-execute gate, then the polling loop. -/
def run_session (s : Session) : SessionOutcome × Obs :=
  match recv_timeout s.cmdArrival with
  | Except.error e => (SessionOutcome.fail e, obs_fail)
  | Except.ok res =>
    if res.safe && !(strHasSubstr (strToLower s.query) "explain") then
      (SessionOutcome.done (TuiResult.execute res.command), obs_auto)
    else
      main_loop res.command (s.isEdge || s.geminiKey.isSome) false none
        (obs_confirm s) s.ticks

/-! ## Client bridge (src/cli/src/tui.rs, `get_command`) -/

/-- `get_command` from src/cli/src/tui.rs (lines 442-449): when the daemon
socket connects, the daemon's reply (only a command string) is wrapped with
`safe := false`; otherwise the direct Groq call is used.  `daemonConn` is
`none` when `IpcClient::try_connect` fails, otherwise the
`IpcClient::send_request` outcome. -/
def get_command (daemonConn : Option (Except String String))
    (groqResult : Except String CommandResult) : Except String CommandResult :=
  match daemonConn with
  | some sendResult =>
    match sendResult with
    | Except.ok cmd => Except.ok { command := cmd, safe := false }
    | Except.error e => Except.error e
  | none => groqResult

/-! ## Endpoint ownership (src/cli/src/ipc.rs, `IpcServer`)

Unix-socket world: the well-known path links to at most one socket inode;
binding creates a fresh inode at the path.  `IpcServer::new` removes any
existing file first and then binds; `Drop for IpcServer` removes the path. -/

/-- Filesystem and server state for the well-known endpoint: the inode the
path currently links to (if any), a fresh-inode counter, and the inodes of
live listeners. -/
structure IpcWorld where
  pathInode : Option Nat
  nextInode : Nat
  liveServers : List Nat
deriving DecidableEq, Repr

/-- The world before any daemon starts. -/
def ipcWorld_init : IpcWorld := { pathInode := none, nextInode := 0, liveServers := [] }

/-- `IpcServer::new` (src/cli/src/ipc.rs, lines 97-110): remove the existing
socket file if present, then bind a fresh listener at the path (non-blocking
accept has no effect on ownership).  Returns the world and the new server. -/
def ipc_server_new (w : IpcWorld) : IpcWorld × Nat :=
  ({ pathInode := some w.nextInode, nextInode := w.nextInode + 1,
     liveServers := w.nextInode :: w.liveServers }, w.nextInode)

/-- `Drop for IpcServer` (src/cli/src/ipc.rs, lines 122-127): unconditionally
remove the socket path and release the listener. -/
def ipc_server_drop (w : IpcWorld) (ino : Nat) : IpcWorld :=
  { pathInode := none, nextInode := w.nextInode, liveServers := w.liveServers.erase ino }

/-- A live server holds the well-known endpoint when the path links to its
listener's inode. -/
def holds_endpoint (w : IpcWorld) (ino : Nat) : Prop :=
  w.pathInode = some ino ∧ ino ∈ w.liveServers

instance (w : IpcWorld) (ino : Nat) : Decidable (holds_endpoint w ino) := by
  unfold holds_endpoint
  infer_instance

/-- Lifecycle events of the endpoint. -/
inductive IpcOp
  | newServer
  | dropServer (ino : Nat)
deriving DecidableEq, Repr

/-- One lifecycle step. -/
def ipc_step (w : IpcWorld) : IpcOp → IpcWorld
  | IpcOp.newServer => (ipc_server_new w).1
  | IpcOp.dropServer i => ipc_server_drop w i

/-- The world after a sequence of lifecycle events. -/
def ipc_run (ops : List IpcOp) : IpcWorld := ops.foldl ipc_step ipcWorld_init

/-! ## Daemon supervisor main loop (src/cli/src/daemon.rs, `run_daemon`) -/

/-- Daemon idle timeout in seconds (src/cli/src/daemon.rs, line 14). -/
def DAEMON_IDLE_TIMEOUT_SECS : Nat := 300

/-- One main-loop iteration's environment: the value `start.elapsed()` reads
at the loop head, and whether the non-blocking accept yields a connection. -/
structure DaemonTick where
  elapsed : Nat
  conn : Bool
deriving DecidableEq, Repr

/-- State at loop exit. -/
structure DaemonExit where
  lastActivity : Nat
  shutdown : Bool
deriving DecidableEq, Repr

/-- The `run_daemon` main loop (src/cli/src/daemon.rs, lines 122-147): check
idle timeout (set the shutdown flag and break when exceeded), else one
non-blocking accept which on success resets the activity timestamp and
dispatches one request (`handle_request`, embedded above), then sleep.
`none` means the trace ended with the loop still running. -/
def daemon_loop (last : Nat) : List DaemonTick → Option DaemonExit
  | [] => none
  | t :: rest =>
    if t.elapsed > 0 && t.elapsed - last > DAEMON_IDLE_TIMEOUT_SECS then
      some { lastActivity := last, shutdown := true }
    else if t.conn then daemon_loop t.elapsed rest
    else daemon_loop last rest

/-- `run_daemon` (src/cli/src/daemon.rs, lines 61-150) at the resource level:
bind the endpoint, run the main loop from a zero activity timestamp, and on
loop exit drop the server (removing the endpoint file). -/
def run_daemon_model (w : IpcWorld) (ticks : List DaemonTick) :
    Option (IpcWorld × DaemonExit) :=
  match daemon_loop 0 ticks with
  | none => none
  | some ex => some (ipc_server_drop (ipc_server_new w).1 (ipc_server_new w).2, ex)

/-! ## Terminal layout (src/cli/src/tui.rs, lines 188-259 and 344-355)

A cursor/row interpreter for the absolute-position output: `print` writes at
the current row, `crlf` moves to the next row, `moveUp` subtracts (clamped at
the top like a real terminal), and column moves and line clears do not change
the row.  `writes` records every (row, text) print in order. -/

/-- Terminal output operations used by the renderer. -/
inductive TermOp
  | print (s : String)
  | crlf
  | moveUp (n : Nat)
  | moveToCol0
  | clearLine
deriving DecidableEq, Repr

/-- Cursor row plus the chronological log of prints. -/
structure TermState where
  row : Nat
  writes : List (Nat × String)
deriving DecidableEq, Repr

/-- Execute one terminal operation. -/
def term_exec (st : TermState) : TermOp → TermState
  | TermOp.print s => { st with writes := st.writes ++ [(st.row, s)] }
  | TermOp.crlf => { st with row := st.row + 1 }
  | TermOp.moveUp n => { st with row := st.row - n }
  | TermOp.moveToCol0 => st
  | TermOp.clearLine => st

/-- Execute a list of terminal operations. -/
def term_run (st : TermState) (ops : List TermOp) : TermState :=
  ops.foldl term_exec st

/-- `RESERVED_LINES` (src/cli/src/tui.rs, line 188). -/
def RESERVED_LINES : Nat := 15

/-- `lines_to_go_up = 2 + 1 + RESERVED_LINES` (src/cli/src/tui.rs, line 240). -/
def LINES_TO_GO_UP : Nat := 2 + 1 + RESERVED_LINES

/-- The placeholder block (src/cli/src/tui.rs, lines 194-202): dim dots, one
per reserved line. -/
def placeholder_ops : Nat → List TermOp
  | 0 => []
  | n + 1 => TermOp.print "·" :: TermOp.crlf :: placeholder_ops n

/-- The overwrite pass for the delivered explanation lines
(src/cli/src/tui.rs, lines 244-251). -/
def overwrite_lines_ops : List String → List TermOp
  | [] => []
  | l :: ls => TermOp.clearLine :: TermOp.print l :: TermOp.crlf :: overwrite_lines_ops ls

/-- Clearing the remaining placeholder lines (src/cli/src/tui.rs,
lines 254-256). -/
def clear_rest_ops : Nat → List TermOp
  | 0 => []
  | n + 1 => TermOp.clearLine :: TermOp.crlf :: clear_rest_ops n

/-- Initial layout (src/cli/src/tui.rs, lines 190-223): clear the loading
line, print the reserved placeholder block, a blank separator line, the
command, then the prompt (no trailing newline). -/
def layout_ops (command : String) : List TermOp :=
  TermOp.moveToCol0 :: TermOp.clearLine :: placeholder_ops RESERVED_LINES
    ++ [TermOp.crlf, TermOp.print command, TermOp.crlf,
        TermOp.print "Loading explanation..."]

/-- Explanation insertion plus the confirm-prompt reprint
(src/cli/src/tui.rs, lines 240-259 and 344-355): move up by
`lines_to_go_up`, overwrite with at most `RESERVED_LINES` explanation lines,
clear the rest of the region, skip the separator, then reprint the command
and the confirmation prompt. -/
def explanation_ops (expLines : List String) (command : String) : List TermOp :=
  TermOp.moveUp LINES_TO_GO_UP :: TermOp.moveToCol0 ::
    overwrite_lines_ops (expLines.take RESERVED_LINES)
    ++ clear_rest_ops (RESERVED_LINES - expLines.length)
    ++ [TermOp.crlf,
        TermOp.clearLine, TermOp.print command, TermOp.crlf,
        TermOp.clearLine, TermOp.print "Press Enter to run, Ctrl+C to cancel... "]

/-- The rows at which a given text was printed, in chronological order. -/
def rows_of (st : TermState) (s : String) : List Nat :=
  (st.writes.filter (fun w => w.2 == s)).map (fun w => w.1)

/-! ## Lemmas about the polling loop -/

theorem quietKey_iff (k : Option KeyEvent) :
    quietKey k = true ↔ k = none ∨ k = some KeyEvent.other := by
  cases k with
  | none => simp [quietKey]
  | some a => cases a <;> simp [quietKey]

theorem danger_loop_no_execute (c : String) (ticks : List Tick) :
    ∀ obs x, (danger_loop c obs ticks).1 ≠ SessionOutcome.done (TuiResult.execute x) := by
  induction ticks with
  | nil =>
    intro obs x h
    simp [danger_loop] at h
  | cons t rest ih =>
    intro obs x
    cases hk : t.key with
    | none =>
      intro h
      exact ih obs x (by simpa [danger_loop, hk] using h)
    | some a =>
      cases a with
      | enter => intro h; simp [danger_loop, hk] at h
      | ctrlC => intro h; simp [danger_loop, hk] at h
      | esc => intro h; simp [danger_loop, hk] at h
      | other =>
        intro h
        exact ih _ x (by simpa [danger_loop, hk] using h)

theorem danger_loop_quiet (c : String) (ticks : List Tick) :
    ∀ obs, (∀ t ∈ ticks, quietKey t.key = true) →
      (danger_loop c obs ticks).1 = SessionOutcome.running := by
  induction ticks with
  | nil => intro obs _; simp [danger_loop]
  | cons t rest ih =>
    intro obs hq
    have ht := hq t (List.mem_cons_self t rest)
    have hr : ∀ u ∈ rest, quietKey u.key = true :=
      fun u hu => hq u (List.mem_cons_of_mem _ hu)
    rcases (quietKey_iff t.key).mp ht with h | h
    · simpa [danger_loop, h] using ih obs hr
    · simpa [danger_loop, h] using ih _ hr

theorem danger_loop_enter (c : String) (pre : List Tick) :
    ∀ obs t post, (∀ u ∈ pre, quietKey u.key = true) →
      t.key = some KeyEvent.enter →
      (danger_loop c obs (pre ++ t :: post)).1 = SessionOutcome.done TuiResult.cancel ∧
      c ∈ (danger_loop c obs (pre ++ t :: post)).2.clipboard := by
  induction pre with
  | nil =>
    intro obs t post _ hk
    refine ⟨by simp [danger_loop, hk], ?_⟩
    simp [danger_loop, hk]
  | cons u pre' ih =>
    intro obs t post hq hk
    have hu := hq u (List.mem_cons_self u pre')
    have hq' : ∀ v ∈ pre', quietKey v.key = true :=
      fun v hv => hq v (List.mem_cons_of_mem _ hv)
    rcases (quietKey_iff u.key).mp hu with h | h
    · simpa [danger_loop, h] using ih obs t post hq' hk
    · simpa [danger_loop, h] using ih _ t post hq' hk

theorem danger_loop_keeps_flags (c : String) (ticks : List Tick) :
    ∀ obs, (danger_loop c obs ticks).2.commandShown = obs.commandShown ∧
      (danger_loop c obs ticks).2.confirmPromptShown = obs.confirmPromptShown := by
  induction ticks with
  | nil => intro obs; simp [danger_loop]
  | cons t rest ih =>
    intro obs
    cases hk : t.key with
    | none => simpa [danger_loop, hk] using ih obs
    | some a =>
      cases a with
      | enter => simp [danger_loop, hk]
      | ctrlC => simp [danger_loop, hk]
      | esc => simp [danger_loop, hk]
      | other => simpa [danger_loop, hk] using ih _

theorem main_loop_execute_enter (c : String) (hasExp : Bool) (ticks : List Tick) :
    ∀ printed expText obs x,
      (main_loop c hasExp printed expText obs ticks).1
        = SessionOutcome.done (TuiResult.execute x) →
      x = c ∧ ∃ t ∈ ticks, t.key = some KeyEvent.enter := by
  induction ticks with
  | nil =>
    intro p e obs x h
    simp [main_loop] at h
  | cons t rest ih =>
    intro p e obs x h
    rcases hep : exp_phase hasExp p e obs t.exp with obs1 | ⟨p1, e1, obs1⟩
    · rw [show main_loop c hasExp p e obs (t :: rest)
            = danger_loop c obs1 (t :: rest) by simp [main_loop, hep]] at h
      exact absurd h (danger_loop_no_execute c (t :: rest) obs1 x)
    · cases hk : t.key with
      | none =>
        have h' : (main_loop c hasExp p1 e1 obs1 rest).1
            = SessionOutcome.done (TuiResult.execute x) := by
          simpa [main_loop, hep, hk] using h
        obtain ⟨hx, u, hu, hku⟩ := ih p1 e1 obs1 x h'
        exact ⟨hx, u, List.mem_cons_of_mem _ hu, hku⟩
      | some a =>
        cases a with
        | enter =>
          have hx : x = c := by simpa [main_loop, hep, hk] using h.symm
          exact ⟨hx, t, List.mem_cons_self t rest, hk⟩
        | ctrlC => simp [main_loop, hep, hk] at h
        | esc => simp [main_loop, hep, hk] at h
        | other =>
          have h' : (main_loop c hasExp p1 e1
              { obs1 with keysRead := obs1.keysRead + 1 } rest).1
              = SessionOutcome.done (TuiResult.execute x) := by
            simpa [main_loop, hep, hk] using h
          obtain ⟨hx, u, hu, hku⟩ := ih p1 e1 _ x h'
          exact ⟨hx, u, List.mem_cons_of_mem _ hu, hku⟩

theorem main_loop_quiet (c : String) (hasExp : Bool) (ticks : List Tick) :
    ∀ printed expText obs, (∀ t ∈ ticks, quietKey t.key = true) →
      (main_loop c hasExp printed expText obs ticks).1 = SessionOutcome.running := by
  induction ticks with
  | nil => intro p e obs _; simp [main_loop]
  | cons t rest ih =>
    intro p e obs hq
    have ht := hq t (List.mem_cons_self t rest)
    have hr : ∀ u ∈ rest, quietKey u.key = true :=
      fun u hu => hq u (List.mem_cons_of_mem _ hu)
    rcases hep : exp_phase hasExp p e obs t.exp with obs1 | ⟨p1, e1, obs1⟩
    · rw [show main_loop c hasExp p e obs (t :: rest)
            = danger_loop c obs1 (t :: rest) by simp [main_loop, hep]]
      exact danger_loop_quiet c (t :: rest) obs1 hq
    · rcases (quietKey_iff t.key).mp ht with h | h
      · simpa [main_loop, hep, h] using ih p1 e1 obs1 hr
      · simpa [main_loop, hep, h] using ih p1 e1 _ hr

theorem main_loop_keeps_shown (c : String) (hasExp : Bool) (ticks : List Tick) :
    ∀ printed expText obs, obs.commandShown = true → obs.confirmPromptShown = true →
      (main_loop c hasExp printed expText obs ticks).2.commandShown = true ∧
      (main_loop c hasExp printed expText obs ticks).2.confirmPromptShown = true := by
  induction ticks with
  | nil =>
    intro p e obs h1 h2
    simp [main_loop, h1, h2]
  | cons t rest ih =>
    intro p e obs h1 h2
    have hflags : ∀ obs1, exp_phase hasExp p e obs t.exp = ExpPhase.toDanger obs1 →
        obs1.commandShown = true ∧ obs1.confirmPromptShown = true := by
      intro obs1 hep
      simp only [exp_phase] at hep
      by_cases hc : (hasExp && !p) = true
      · rw [if_pos hc] at hep
        cases he : t.exp with
        | empty => rw [he] at hep; cases hep
        | err m => rw [he] at hep; cases hep
        | disconnected => rw [he] at hep; cases hep
        | ok text =>
          rw [he] at hep
          dsimp only at hep
          by_cases hd : strHasSubstr text "[DANGER]" = true
          · rw [if_pos hd] at hep
            cases hep
            exact ⟨rfl, h2⟩
          · rw [if_neg hd] at hep
            cases hep
      · rw [if_neg hc] at hep
        cases hep
    have hflags2 : ∀ p1 e1 obs1,
        exp_phase hasExp p e obs t.exp = ExpPhase.cont p1 e1 obs1 →
        obs1.commandShown = true ∧ obs1.confirmPromptShown = true := by
      intro p1 e1 obs1 hep
      simp only [exp_phase] at hep
      by_cases hc : (hasExp && !p) = true
      · rw [if_pos hc] at hep
        cases he : t.exp with
        | empty => rw [he] at hep; cases hep; exact ⟨h1, h2⟩
        | err m => rw [he] at hep; cases hep; exact ⟨rfl, rfl⟩
        | disconnected => rw [he] at hep; cases hep; exact ⟨h1, h2⟩
        | ok text =>
          rw [he] at hep
          dsimp only at hep
          by_cases hd : strHasSubstr text "[DANGER]" = true
          · rw [if_pos hd] at hep
            cases hep
          · rw [if_neg hd] at hep
            cases hep
            exact ⟨rfl, rfl⟩
      · rw [if_neg hc] at hep
        cases hep
        exact ⟨h1, h2⟩
    rcases hep : exp_phase hasExp p e obs t.exp with obs1 | ⟨p1, e1, obs1⟩
    · obtain ⟨hc1, hc2⟩ := hflags obs1 hep
      rw [show main_loop c hasExp p e obs (t :: rest)
            = danger_loop c obs1 (t :: rest) by simp [main_loop, hep]]
      obtain ⟨hk1, hk2⟩ := danger_loop_keeps_flags c (t :: rest) obs1
      exact ⟨hk1.trans hc1, hk2.trans hc2⟩
    · obtain ⟨hc1, hc2⟩ := hflags2 p1 e1 obs1 hep
      cases hk : t.key with
      | none => simpa [main_loop, hep, hk] using ih p1 e1 obs1 hc1 hc2
      | some a =>
        cases a with
        | enter => simp [main_loop, hep, hk, hc1, hc2]
        | ctrlC => simp [main_loop, hep, hk, hc1, hc2]
        | esc => simp [main_loop, hep, hk, hc1, hc2]
        | other =>
          simpa [main_loop, hep, hk] using
            ih p1 e1 { obs1 with keysRead := obs1.keysRead + 1 } hc1 hc2

theorem main_loop_danger_safe (c : String) (pre : List Tick) :
    ∀ expText obs d post e,
      d.exp = ExpPoll.ok e → strHasSubstr e "[DANGER]" = true →
      (∀ t ∈ pre, t.exp = ExpPoll.empty ∧ t.key ≠ some KeyEvent.enter) →
      (∀ x, (main_loop c true false expText obs (pre ++ d :: post)).1
          ≠ SessionOutcome.done (TuiResult.execute x)) ∧
      ((∀ t ∈ pre, quietKey t.key = true) → d.key = some KeyEvent.enter →
        (main_loop c true false expText obs (pre ++ d :: post)).1
            = SessionOutcome.done TuiResult.cancel ∧
        c ∈ (main_loop c true false expText obs (pre ++ d :: post)).2.clipboard) := by
  induction pre with
  | nil =>
    intro expText obs d post e hde hdanger _
    have hep : exp_phase true false expText obs d.exp
        = ExpPhase.toDanger
            { obs with expChannelRead := true, commandShown := true,
                       dangerPromptShown := true } := by
      rw [hde]
      simp [exp_phase, hdanger]
    have hml : main_loop c true false expText obs ([] ++ d :: post)
        = danger_loop c
            { obs with expChannelRead := true, commandShown := true,
                       dangerPromptShown := true } (d :: post) := by
      simp [main_loop, hep]
    rw [hml]
    constructor
    · exact fun x => danger_loop_no_execute c (d :: post) _ x
    · intro _ hk
      simpa using danger_loop_enter c [] _ d post (by simp) hk
  | cons t pre' ih =>
    intro expText obs d post e hde hdanger hpre
    have ht := hpre t (List.mem_cons_self t pre')
    have hpre' : ∀ u ∈ pre', u.exp = ExpPoll.empty ∧ u.key ≠ some KeyEvent.enter :=
      fun u hu => hpre u (List.mem_cons_of_mem _ hu)
    have hep : exp_phase true false expText obs t.exp
        = ExpPhase.cont false expText obs := by
      rw [ht.1]
      simp [exp_phase]
    cases hk : t.key with
    | none =>
      have heq : main_loop c true false expText obs ((t :: pre') ++ d :: post)
          = main_loop c true false expText obs (pre' ++ d :: post) := by
        simp [main_loop, hep, hk]
      rw [heq]
      obtain ⟨ha, hb⟩ := ih expText obs d post e hde hdanger hpre'
      refine ⟨ha, fun hq hkd => hb (fun u hu => hq u (List.mem_cons_of_mem _ hu)) hkd⟩
    | some a =>
      cases a with
      | enter => exact absurd hk ht.2
      | ctrlC =>
        constructor
        · intro x h
          simp [main_loop, hep, hk] at h
        · intro hq _
          have := hq t (List.mem_cons_self t pre')
          rw [hk] at this
          simp [quietKey] at this
      | esc =>
        constructor
        · intro x h
          simp [main_loop, hep, hk] at h
        · intro hq _
          have := hq t (List.mem_cons_self t pre')
          rw [hk] at this
          simp [quietKey] at this
      | other =>
        have heq : main_loop c true false expText obs ((t :: pre') ++ d :: post)
            = main_loop c true false expText
                { obs with keysRead := obs.keysRead + 1 } (pre' ++ d :: post) := by
          simp [main_loop, hep, hk]
        rw [heq]
        obtain ⟨ha, hb⟩ :=
          ih expText { obs with keysRead := obs.keysRead + 1 } d post e hde hdanger hpre'
        refine ⟨ha, fun hq hkd => hb (fun u hu => hq u (List.mem_cons_of_mem _ hu)) hkd⟩

theorem run_session_eq_main (s : Session) (r : CommandResult)
    (h : recv_timeout s.cmdArrival = Except.ok r)
    (hsafe : (r.safe && !(strHasSubstr (strToLower s.query) "explain")) = false) :
    run_session s = main_loop r.command (s.isEdge || s.geminiKey.isSome) false none
      (obs_confirm s) s.ticks := by
  simp [run_session, h, hsafe]

/-! ## Claim theorems -/

/-- C10: `parse_response` is total over resolver output: for every input
string it returns `Ok` and never `Err`; when the fence-stripped text does not
parse as the JSON command object, it falls back to the legacy plain-text
cleaner and conservatively sets `safe := false`. -/
theorem c10_parse_response_total (jsonParse : String → Option CommandResult)
    (response : String) :
    (∃ r, parse_response jsonParse response = Except.ok r) ∧
    (jsonParse (strip_markdown_fence response) = none →
      parse_response jsonParse response
        = Except.ok { command := clean_response_legacy response, safe := false }) := by
  refine ⟨parse_response_isOk jsonParse response, fun h => ?_⟩
  simp [parse_response, h]

theorem c10_witness :
    (fun _ : String => (none : Option CommandResult))
        (strip_markdown_fence "Command: ls -la") = none ∧
    parse_response (fun _ => none) "Command: ls -la"
      = Except.ok { command := "ls -la", safe := false } := by
  refine ⟨rfl, ?_⟩
  have h := (c10_parse_response_total (fun _ => none) "Command: ls -la").2 rfl
  have hc : clean_response_legacy "Command: ls -la" = "ls -la" := by decide
  rw [hc] at h
  exact h

/-- C3: for every request line received by the daemon, including malformed
input, `handle_request` returns an `IpcResponse`; in every returned response
`success = false` implies a present, non-empty error, and `success = true`
implies a present result. -/
theorem c3_handle_request_total (readRes : ReadOutcome)
    (parseReq : String → Except String IpcRequest)
    (jsonParse : String → Option CommandResult)
    (groqT : GroqTransport) (geminiKey : Option String) (gemT : GeminiTransport) :
    ((handle_request readRes parseReq jsonParse groqT geminiKey gemT).success = false →
      ∃ e, (handle_request readRes parseReq jsonParse groqT geminiKey gemT).error
          = some e ∧ e ≠ "") ∧
    ((handle_request readRes parseReq jsonParse groqT geminiKey gemT).success = true →
      ∃ r, (handle_request readRes parseReq jsonParse groqT geminiKey gemT).result
          = some r) := by
  cases readRes with
  | failed =>
    refine ⟨fun _ => ⟨"Failed to read request", rfl, by decide⟩, fun h => ?_⟩
    simp [handle_request] at h
  | line l =>
    cases hpr : parseReq l with
    | error e =>
      refine ⟨fun _ => ⟨"Invalid request: " ++ e, by simp [handle_request, hpr],
        str_append_ne_empty _ _ (by decide)⟩, fun h => ?_⟩
      simp [handle_request, hpr] at h
    | ok req =>
      cases req with
      | command q =>
        cases hgq : groq_query jsonParse groqT with
        | ok r =>
          refine ⟨fun h => ?_, fun _ => ⟨r.command, by simp [handle_request, hpr, hgq]⟩⟩
          simp [handle_request, hpr, hgq] at h
        | error e =>
          refine ⟨fun _ => ⟨e, by simp [handle_request, hpr, hgq],
            groq_query_error_ne_empty jsonParse groqT e hgq⟩, fun h => ?_⟩
          simp [handle_request, hpr, hgq] at h
      | explain cm st =>
        cases hlz : lazy_gemini_get_or_init geminiKey with
        | error e =>
          refine ⟨fun _ => ⟨e, by simp [handle_request, hpr, hlz],
            lazy_gemini_error_ne_empty geminiKey e hlz⟩, fun h => ?_⟩
          simp [handle_request, hpr, hlz] at h
        | ok u =>
          cases hge : gemini_explain gemT with
          | ok r =>
            refine ⟨fun h => ?_,
              fun _ => ⟨r, by simp [handle_request, hpr, hlz, hge]⟩⟩
            simp [handle_request, hpr, hlz, hge] at h
          | error e =>
            refine ⟨fun _ => ⟨e, by simp [handle_request, hpr, hlz, hge],
              gemini_explain_error_ne_empty gemT e hge⟩, fun h => ?_⟩
            simp [handle_request, hpr, hlz, hge] at h

theorem c3_witness :
    (handle_request (ReadOutcome.line "not json")
        (fun _ => Except.error "expected value")
        (fun _ => none) (GroqTransport.ok none) none
        (GeminiTransport.ok "")).success = false ∧
    ∃ e, (handle_request (ReadOutcome.line "not json")
        (fun _ => Except.error "expected value")
        (fun _ => none) (GroqTransport.ok none) none
        (GeminiTransport.ok "")).error = some e ∧ e ≠ "" := by
  refine ⟨rfl, ?_⟩
  exact (c3_handle_request_total (ReadOutcome.line "not json")
    (fun _ => Except.error "expected value") (fun _ => none)
    (GroqTransport.ok none) none (GeminiTransport.ok "")).1 rfl

/-- C9: every command resolved through the daemon socket is wrapped with
`safe := false` regardless of the resolver's judgment, so a daemon-resolved
command is never auto-executed: without any terminating key press the
session keeps waiting for confirmation. -/
theorem c9_daemon_resolved_unsafe (sendResult : Except String String)
    (groqResult : Except String CommandResult) (r : CommandResult)
    (h : get_command (some sendResult) groqResult = Except.ok r) :
    r.safe = false ∧
    (∀ q iE gk ticks, (∀ u ∈ ticks, quietKey u.key = true) →
      (run_session { query := q, isEdge := iE, geminiKey := gk,
                     cmdArrival := some (0, Except.ok r), ticks := ticks }).1
        = SessionOutcome.running) := by
  have hsafe : r.safe = false := by
    cases sendResult with
    | ok cmd =>
      simp only [get_command] at h
      cases h
      rfl
    | error e => simp [get_command] at h
  refine ⟨hsafe, fun q iE gk ticks hq => ?_⟩
  have hr : recv_timeout (some (0, Except.ok r)) = Except.ok r := rfl
  have hcond : (r.safe && !(strHasSubstr (strToLower q) "explain")) = false := by
    rw [hsafe]
    simp
  rw [run_session_eq_main _ r hr hcond]
  exact main_loop_quiet _ _ ticks _ _ _ hq

theorem c9_witness :
    get_command (some (Except.ok "ls -la")) (Except.ok ⟨"pwd", true⟩)
      = Except.ok ⟨"ls -la", false⟩ ∧
    ((⟨"ls -la", false⟩ : CommandResult).safe = false ∧
      (∀ q iE gk ticks, (∀ u ∈ ticks, quietKey u.key = true) →
        (run_session { query := q, isEdge := iE, geminiKey := gk,
                       cmdArrival := some (0, Except.ok ⟨"ls -la", false⟩),
                       ticks := ticks }).1 = SessionOutcome.running)) :=
  ⟨rfl, c9_daemon_resolved_unsafe (Except.ok "ls -la") (Except.ok ⟨"pwd", true⟩)
    ⟨"ls -la", false⟩ rfl⟩

/-- C2: when the resolver returns `safe = true` and the lowercased query does
not contain the substring "explain", the renderer returns `Execute(command)`
immediately: no key event is read, no confirmation prompt is shown, and no
explanation is fetched (no explainer worker is spawned and the explanation
channel is never read). -/
theorem c2_auto_execute (s : Session) (r : CommandResult)
    (h : recv_timeout s.cmdArrival = Except.ok r)
    (hs : r.safe = true)
    (hq : strHasSubstr (strToLower s.query) "explain" = false) :
    run_session s = (SessionOutcome.done (TuiResult.execute r.command), obs_auto) ∧
    obs_auto.keysRead = 0 ∧ obs_auto.confirmPromptShown = false ∧
    obs_auto.geminiSpawned = false ∧ obs_auto.expChannelRead = false ∧
    obs_auto.clipboard = [] ∧ obs_auto.rawMode = false := by
  refine ⟨?_, rfl, rfl, rfl, rfl, rfl, rfl⟩
  simp [run_session, h, hs, hq]

theorem c2_witness :
    recv_timeout (some (0, Except.ok ⟨"ls -la", true⟩)) = Except.ok ⟨"ls -la", true⟩ ∧
    (⟨"ls -la", true⟩ : CommandResult).safe = true ∧
    strHasSubstr (strToLower "list files") "explain" = false ∧
    run_session { query := "list files", isEdge := false, geminiKey := none,
                  cmdArrival := some (0, Except.ok ⟨"ls -la", true⟩), ticks := [] }
      = (SessionOutcome.done (TuiResult.execute "ls -la"), obs_auto) :=
  ⟨rfl, rfl, by decide,
    (c2_auto_execute
      { query := "list files", isEdge := false, geminiKey := none,
        cmdArrival := some (0, Except.ok ⟨"ls -la", true⟩), ticks := [] }
      ⟨"ls -la", true⟩ rfl rfl (by decide)).1⟩

/-- C1 (counterexample): a session whose explanation text carries the DANGER
tag does reach `Executed` when Enter is pressed before the explanation
arrives on the channel: the key poll of the main loop accepts Enter while
the explanation is still loading. -/
theorem c1_counterexample :
    strHasSubstr "[DANGER] deletes files" "[DANGER]" = true ∧
    (run_session { query := "remove temp", isEdge := false, geminiKey := some "k",
                   cmdArrival := some (0, Except.ok ⟨"rm -rf /tmp/x", false⟩),
                   ticks := [⟨ExpPoll.empty, some KeyEvent.enter⟩,
                             ⟨ExpPoll.ok "[DANGER] deletes files", none⟩] }).1
      = SessionOutcome.done (TuiResult.execute "rm -rf /tmp/x") := by
  exact ⟨by decide, by decide⟩

/-- C1 (amended): for every session that is not auto-executed, in which the
DANGER-tagged explanation is the first value the channel delivers and no
Enter key is seen before it arrives, the session never reaches `Executed`;
once the DANGER explanation is shown, Enter only copies the command to the
clipboard and the session ends in `Cancelled`.  (An Enter pressed before the
explanation arrives instead executes the command via the ordinary confirm
path, as the counterexample shows.) -/
theorem c1_danger_confirm (s : Session) (r : CommandResult) (e : String)
    (pre : List Tick) (d : Tick) (post : List Tick)
    (h : recv_timeout s.cmdArrival = Except.ok r)
    (hcond : (r.safe && !(strHasSubstr (strToLower s.query) "explain")) = false)
    (hchan : (s.isEdge || s.geminiKey.isSome) = true)
    (ht : s.ticks = pre ++ d :: post)
    (hde : d.exp = ExpPoll.ok e)
    (hdanger : strHasSubstr e "[DANGER]" = true)
    (hpre : ∀ u ∈ pre, u.exp = ExpPoll.empty ∧ u.key ≠ some KeyEvent.enter) :
    (∀ x, (run_session s).1 ≠ SessionOutcome.done (TuiResult.execute x)) ∧
    ((∀ u ∈ pre, quietKey u.key = true) → d.key = some KeyEvent.enter →
      (run_session s).1 = SessionOutcome.done TuiResult.cancel ∧
      r.command ∈ (run_session s).2.clipboard) := by
  rw [run_session_eq_main s r h hcond, hchan, ht]
  exact main_loop_danger_safe r.command pre none (obs_confirm s) d post e hde hdanger hpre

theorem c1_witness :
    strHasSubstr "[DANGER] deletes files" "[DANGER]" = true ∧
    ((run_session { query := "remove temp", isEdge := false, geminiKey := some "k",
                    cmdArrival := some (0, Except.ok ⟨"rm -rf /tmp/x", false⟩),
                    ticks := [⟨ExpPoll.ok "[DANGER] deletes files",
                               some KeyEvent.enter⟩] }).1
        = SessionOutcome.done TuiResult.cancel ∧
      "rm -rf /tmp/x" ∈
        (run_session { query := "remove temp", isEdge := false, geminiKey := some "k",
                       cmdArrival := some (0, Except.ok ⟨"rm -rf /tmp/x", false⟩),
                       ticks := [⟨ExpPoll.ok "[DANGER] deletes files",
                                  some KeyEvent.enter⟩] }).2.clipboard) := by
  refine ⟨by decide, ?_⟩
  exact (c1_danger_confirm
    { query := "remove temp", isEdge := false, geminiKey := some "k",
      cmdArrival := some (0, Except.ok ⟨"rm -rf /tmp/x", false⟩),
      ticks := [⟨ExpPoll.ok "[DANGER] deletes files", some KeyEvent.enter⟩] }
    ⟨"rm -rf /tmp/x", false⟩ "[DANGER] deletes files"
    [] ⟨ExpPoll.ok "[DANGER] deletes files", some KeyEvent.enter⟩ []
    rfl (by decide) rfl rfl rfl (by decide) (by simp)).2 (by simp) rfl

/-- C4: when the explanation channel delivers a failure while the session is
awaiting the explanation, the session degrades to the ordinary confirm
state: the command stays displayed with the manual confirmation prompt,
execution happens only on an explicit Enter, and the command is never
executed without a key press. -/
theorem c4_explainer_failure_confirm (s : Session) (r : CommandResult)
    (m : String) (post : List Tick)
    (h : recv_timeout s.cmdArrival = Except.ok r)
    (hs : r.safe = false)
    (hchan : (s.isEdge || s.geminiKey.isSome) = true)
    (ht : s.ticks = Tick.mk (ExpPoll.err m) none :: post) :
    ((run_session s).2.commandShown = true ∧
      (run_session s).2.confirmPromptShown = true) ∧
    (∀ x, (run_session s).1 = SessionOutcome.done (TuiResult.execute x) →
      x = r.command ∧ ∃ u ∈ s.ticks, u.key = some KeyEvent.enter) ∧
    ((∀ u ∈ post, quietKey u.key = true) →
      (run_session s).1 = SessionOutcome.running) ∧
    (∀ rest, post = Tick.mk ExpPoll.empty (some KeyEvent.enter) :: rest →
      (run_session s).1 = SessionOutcome.done (TuiResult.execute r.command)) := by
  have hcond : (r.safe && !(strHasSubstr (strToLower s.query) "explain")) = false := by
    rw [hs]
    simp
  have hrw := run_session_eq_main s r h hcond
  rw [hchan] at hrw
  have hep : exp_phase true false none (obs_confirm s) (ExpPoll.err m)
      = ExpPhase.cont true none
          { obs_confirm s with expChannelRead := true, commandShown := true,
                               confirmPromptShown := true } := by
    simp [exp_phase]
  have hstep : run_session s = main_loop r.command true true none
      { obs_confirm s with expChannelRead := true, commandShown := true,
                           confirmPromptShown := true } post := by
    rw [hrw, ht]
    simp [main_loop, hep]
  refine ⟨?_, ?_, ?_, ?_⟩
  · rw [hstep]
    exact main_loop_keeps_shown r.command true post true none _ rfl rfl
  · intro x hx
    rw [hrw] at hx
    obtain ⟨hxc, u, hu, hku⟩ := main_loop_execute_enter r.command true s.ticks false none
      (obs_confirm s) x hx
    exact ⟨hxc, u, hu, hku⟩
  · intro hq
    rw [hstep]
    exact main_loop_quiet r.command true post true none _ hq
  · intro rest hrest
    rw [hstep, hrest]
    have hep2 : exp_phase true true none
        { obs_confirm s with expChannelRead := true, commandShown := true,
                             confirmPromptShown := true } ExpPoll.empty
        = ExpPhase.cont true none
            { obs_confirm s with expChannelRead := true, commandShown := true,
                                 confirmPromptShown := true } := by
      simp [exp_phase]
    simp [main_loop, hep2]

theorem c4_witness :
    recv_timeout (some (0, Except.ok ⟨"rm -rf /tmp/x", false⟩))
      = Except.ok ⟨"rm -rf /tmp/x", false⟩ ∧
    ((run_session { query := "remove temp", isEdge := true, geminiKey := none,
                    cmdArrival := some (0, Except.ok ⟨"rm -rf /tmp/x", false⟩),
                    ticks := [⟨ExpPoll.err "explainer down", none⟩,
                              ⟨ExpPoll.empty, some KeyEvent.enter⟩] }).1
        = SessionOutcome.done (TuiResult.execute "rm -rf /tmp/x")) := by
  refine ⟨rfl, ?_⟩
  exact (c4_explainer_failure_confirm
    { query := "remove temp", isEdge := true, geminiKey := none,
      cmdArrival := some (0, Except.ok ⟨"rm -rf /tmp/x", false⟩),
      ticks := [⟨ExpPoll.err "explainer down", none⟩,
                ⟨ExpPoll.empty, some KeyEvent.enter⟩] }
    ⟨"rm -rf /tmp/x", false⟩ "explainer down"
    [⟨ExpPoll.empty, some KeyEvent.enter⟩]
    rfl rfl rfl rfl).2.2.2 [] rfl

/-- C8: the initial command-resolution wait is the only bounded wait: with no
delivery, or a delivery after the 30-second bound, the session aborts with
the timeout error and raw mode restored, while the key-wait loop of a shown
command iterates through any finite trace without terminating keys and never
times out on its own. -/
theorem c8_bounded_wait (s : Session) (t : Nat)
    (v : Except String CommandResult) (r : CommandResult) :
    (s.cmdArrival = none →
      (run_session s).1 = SessionOutcome.fail "Timeout" ∧
      (run_session s).2.rawMode = false) ∧
    (s.cmdArrival = some (t, v) → 30 < t →
      (run_session s).1 = SessionOutcome.fail "Timeout" ∧
      (run_session s).2.rawMode = false) ∧
    (recv_timeout s.cmdArrival = Except.ok r →
      (r.safe && !(strHasSubstr (strToLower s.query) "explain")) = false →
      (∀ u ∈ s.ticks, quietKey u.key = true) →
      (run_session s).1 = SessionOutcome.running) := by
  refine ⟨?_, ?_, ?_⟩
  · intro h
    have hrt : recv_timeout s.cmdArrival = Except.error "Timeout" := by
      rw [h, recv_timeout]
    have hrs : run_session s = (SessionOutcome.fail "Timeout", obs_fail) := by
      simp [run_session, hrt]
    rw [hrs]
    exact ⟨rfl, rfl⟩
  · intro h hgt
    have hrt : recv_timeout s.cmdArrival = Except.error "Timeout" := by
      rw [h, recv_timeout, if_neg (by omega)]
    have hrs : run_session s = (SessionOutcome.fail "Timeout", obs_fail) := by
      simp [run_session, hrt]
    rw [hrs]
    exact ⟨rfl, rfl⟩
  · intro h hcond hq
    rw [run_session_eq_main s r h hcond]
    exact main_loop_quiet r.command _ s.ticks false none (obs_confirm s) hq

theorem c8_witness :
    (Session.mk "q" false none (some (31, Except.ok ⟨"ls", false⟩)) []).cmdArrival
      = some (31, Except.ok ⟨"ls", false⟩) ∧
    (30 : Nat) < 31 ∧
    ((run_session (Session.mk "q" false none
        (some (31, Except.ok ⟨"ls", false⟩)) [])).1
        = SessionOutcome.fail "Timeout" ∧
      (run_session (Session.mk "q" false none
        (some (31, Except.ok ⟨"ls", false⟩)) [])).2.rawMode = false) :=
  ⟨rfl, by omega,
    (c8_bounded_wait (Session.mk "q" false none
      (some (31, Except.ok ⟨"ls", false⟩)) []) 31
      (Except.ok ⟨"ls", false⟩) ⟨"ls", false⟩).2.1 rfl (by omega)⟩

theorem daemon_loop_idle (pre : List DaemonTick) :
    ∀ last (t : DaemonTick) post, (∀ u ∈ pre, u.conn = false) →
      DAEMON_IDLE_TIMEOUT_SECS < t.elapsed - last → 0 < t.elapsed →
      ∃ ex, daemon_loop last (pre ++ t :: post) = some ex ∧ ex.shutdown = true := by
  induction pre with
  | nil =>
    intro last t post _ hgt hpos
    refine ⟨⟨last, true⟩, ?_, rfl⟩
    simp [daemon_loop, hpos, hgt]
  | cons u pre' ih =>
    intro last t post hpre hgt hpos
    have hu := hpre u (List.mem_cons_self u pre')
    have hpre' : ∀ v ∈ pre', v.conn = false :=
      fun v hv => hpre v (List.mem_cons_of_mem _ hv)
    by_cases hc : 0 < u.elapsed ∧ DAEMON_IDLE_TIMEOUT_SECS < u.elapsed - last
    · refine ⟨⟨last, true⟩, ?_, rfl⟩
      simp [daemon_loop, hc.1, hc.2]
    · obtain ⟨ex, hex, hsd⟩ := ih last t post hpre' hgt hpos
      refine ⟨ex, ?_, hsd⟩
      have hcond : ¬(u.elapsed > 0 ∧ u.elapsed - last > DAEMON_IDLE_TIMEOUT_SECS) := hc
      simp [daemon_loop, hu, hcond]
      exact hex

/-- C5: whenever the main-loop trace contains an iteration whose elapsed time
exceeds the idle-timeout threshold with no connection accepted before it,
`run_daemon` terminates its loop with the shutdown flag set, and after the
server is dropped the socket endpoint file no longer exists. -/
theorem c5_idle_timeout (w : IpcWorld) (ticks : List DaemonTick)
    (pre : List DaemonTick) (t : DaemonTick) (post : List DaemonTick)
    (ht : ticks = pre ++ t :: post)
    (hpre : ∀ u ∈ pre, u.conn = false)
    (hgt : DAEMON_IDLE_TIMEOUT_SECS < t.elapsed) :
    ∃ w2 ex, run_daemon_model w ticks = some (w2, ex) ∧ ex.shutdown = true ∧
      w2.pathInode = none := by
  obtain ⟨ex, hex, hsd⟩ :=
    daemon_loop_idle pre 0 t post hpre (by simpa using hgt) (by omega)
  refine ⟨ipc_server_drop (ipc_server_new w).1 (ipc_server_new w).2, ex,
    ?_, hsd, rfl⟩
  rw [run_daemon_model, ht, hex]

theorem c5_witness :
    ([⟨301, false⟩] : List DaemonTick) = [] ++ (⟨301, false⟩ : DaemonTick) :: [] ∧
    DAEMON_IDLE_TIMEOUT_SECS < (301 : Nat) ∧
    ∃ w2 ex, run_daemon_model ipcWorld_init [⟨301, false⟩] = some (w2, ex) ∧
      ex.shutdown = true ∧ w2.pathInode = none := by
  refine ⟨rfl, by decide, ?_⟩
  exact c5_idle_timeout ipcWorld_init [⟨301, false⟩] [] ⟨301, false⟩ []
    rfl (by simp) (by decide)

/-- Every inode of a live server was allocated before the next fresh one. -/
def ipc_inv (w : IpcWorld) : Prop := ∀ i ∈ w.liveServers, i < w.nextInode

theorem ipc_step_inv (w : IpcWorld) (op : IpcOp) (h : ipc_inv w) :
    ipc_inv (ipc_step w op) := by
  cases op with
  | newServer =>
    intro i hi
    simp only [ipc_step, ipc_server_new, List.mem_cons] at hi ⊢
    rcases hi with hi | hi
    · omega
    · have := h i hi
      omega
  | dropServer j =>
    intro i hi
    simp only [ipc_step, ipc_server_drop] at hi ⊢
    exact h i (List.mem_of_mem_erase hi)

theorem ipc_foldl_inv (ops : List IpcOp) :
    ∀ w, ipc_inv w → ipc_inv (ops.foldl ipc_step w) := by
  induction ops with
  | nil => intro w h; exact h
  | cons op rest ih =>
    intro w h
    exact ih (ipc_step w op) (ipc_step_inv w op h)

theorem ipc_run_inv (ops : List IpcOp) : ipc_inv (ipc_run ops) := by
  apply ipc_foldl_inv
  intro i hi
  simp [ipcWorld_init] at hi

/-- C6: at most one server holds the well-known endpoint at any time: in any
reachable world, binding again (`IpcServer::new`) leaves the new server as
the unique holder — the previously bound server no longer holds the path,
and no two holders can coexist.  The bind itself (remove stale file, bind
fresh) enforces the singleton; no lock file appears anywhere in the model. -/
theorem c6_endpoint_singleton (ops : List IpcOp) (i : Nat)
    (hi : i ∈ (ipc_run ops).liveServers) :
    ¬ holds_endpoint (ipc_step (ipc_run ops) IpcOp.newServer) i ∧
    holds_endpoint (ipc_step (ipc_run ops) IpcOp.newServer) (ipc_run ops).nextInode ∧
    (∀ j k, holds_endpoint (ipc_step (ipc_run ops) IpcOp.newServer) j →
      holds_endpoint (ipc_step (ipc_run ops) IpcOp.newServer) k → j = k) := by
  have hlt := ipc_run_inv ops i hi
  refine ⟨?_, ⟨rfl, List.mem_cons_self _ _⟩, ?_⟩
  · rintro ⟨hp, _⟩
    simp only [ipc_step, ipc_server_new, holds_endpoint, Option.some_inj] at hp
    omega
  · rintro j k ⟨hj, _⟩ ⟨hk, _⟩
    simp only [ipc_step, ipc_server_new, Option.some_inj] at hj hk
    omega

theorem c6_witness :
    (0 : Nat) ∈ (ipc_run [IpcOp.newServer]).liveServers ∧
    (¬ holds_endpoint (ipc_step (ipc_run [IpcOp.newServer]) IpcOp.newServer) 0 ∧
      holds_endpoint (ipc_step (ipc_run [IpcOp.newServer]) IpcOp.newServer)
        (ipc_run [IpcOp.newServer]).nextInode ∧
      (∀ j k, holds_endpoint (ipc_step (ipc_run [IpcOp.newServer]) IpcOp.newServer) j →
        holds_endpoint (ipc_step (ipc_run [IpcOp.newServer]) IpcOp.newServer) k →
        j = k)) :=
  ⟨by decide, c6_endpoint_singleton [IpcOp.newServer] 0 (by decide)⟩

/-- C7 (evaluation at the failing input): with the reserved region occupying
rows 5 to 19, the blank separator at row 20 and the command first printed at
row 21, delivering a one-line explanation makes the renderer move the cursor
up by `LINES_TO_GO_UP = 18` — one row too many — so the explanation line is
written at row 4, outside the reserved region, and the command is reprinted
at row 20 instead of row 21: the command line does not stay at the same
absolute terminal row. -/
theorem c7_layout_row_shift :
    rows_of (term_run ⟨5, []⟩ (layout_ops "rm -rf /tmp/x")) "rm -rf /tmp/x"
      = [21] ∧
    rows_of (term_run (term_run ⟨5, []⟩ (layout_ops "rm -rf /tmp/x"))
        (explanation_ops ["[CAUTION] removes files"] "rm -rf /tmp/x"))
        "rm -rf /tmp/x" = [21, 20] ∧
    rows_of (term_run (term_run ⟨5, []⟩ (layout_ops "rm -rf /tmp/x"))
        (explanation_ops ["[CAUTION] removes files"] "rm -rf /tmp/x"))
        "[CAUTION] removes files" = [4] ∧
    rows_of (term_run ⟨5, []⟩ (layout_ops "rm -rf /tmp/x")) "·"
      = [5, 6, 7, 8, 9, 10, 11, 12, 13, 14, 15, 16, 17, 18, 19] ∧
    LINES_TO_GO_UP = 18 ∧ (4 : Nat) < 5 ∧ (20 : Nat) ≠ 21 := by
  refine ⟨by decide, by decide, by decide, by decide, by decide, by decide, by decide⟩

end Slashcmd
